import Mathlib

/-!
Verification of the GFW-list matching engine in
`src/internal/gfwlist/gfwlist.go` (package `gfwlist`).

The Go code is shallowly embedded: Go strings are modelled as lists of
characters (`Str`), the `url.URL` value as an explicit record, and the
in-place mutation of a `*url.URL` performed by the `match` methods as a
function returning the updated record.  Go standard-library collaborators
that are not part of the repository (`url.Parse`, `net.SplitHostPort`,
`regexp.MatchString`'s compiled-pattern semantics) are modelled as
explicit parameters, so the theorems quantify over every behaviour those
collaborators can exhibit; the `regexp.MatchString` calling convention
itself (invalid pattern ⇒ no match plus an error value) is modelled from
its documented contract.  Logging (`log.Error`) has no observable effect
on the decision and is dropped.  The HTTP fetch and base64 decode in
`fetchGFWList` are outside the matching core; the parser is embedded as a
function of the decoded lines.
-/

/-- Go strings, modelled as lists of characters. -/
abbrev Str := List Char

/-- Modelled from Go `strings.Contains(s, pat)`: `pat` occurs as a
contiguous substring of `s` (the empty pattern occurs in every string). -/
def strContains (s pat : Str) : Bool :=
  (List.range (s.length + 1)).any (fun i => pat.isPrefixOf (s.drop i))

/-- Modelled from Go `strings.HasPrefix(s, pat)`. -/
def hasPrefix (s pat : Str) : Bool :=
  pat.isPrefixOf s

/-- Modelled from Go `strings.HasSuffix(s, pat)`. -/
def hasSuffix (s pat : Str) : Bool :=
  pat.isSuffixOf s

/-- Modelled from Go `strings.TrimSpace`: drop leading and trailing
whitespace. -/
def trimSpace (s : Str) : Str :=
  ((s.dropWhile Char.isWhitespace).reverse.dropWhile Char.isWhitespace).reverse

/-- Modelled from Go `strings.Split(s, sep)` for a one-character
separator: split into the (possibly empty) groups between occurrences of
`c`; the result is never the empty list. -/
def splitOnChar (c : Char) : Str → List Str
  | [] => [[]]
  | a :: rest =>
    let r := splitOnChar c rest
    if a = c then [] :: r
    else
      match r with
      | [] => [[a]]
      | g :: gs => (a :: g) :: gs

/-- The Go `url.URL` value, reduced to the components the gfwlist code
reads: `Scheme`, `Host` (authority, possibly with port), and the rest of
the serialized form (path, query, ...). -/
structure URL where
  scheme : Str
  host : Str
  rest : Str
deriving DecidableEq

/-- The literal `"https"` used by the scheme-defaulting normalization. -/
def httpsStr : Str := ['h', 't', 't', 'p', 's']

/-- Modelled from the spec: the stringified URL (`u.String()` in Go) used
by the URL-wide rule variants.  The exact serialization of `net/url` is
not reproduced; no claim depends on it, only on which components feed it. -/
def URL.toStr (u : URL) : Str :=
  (if u.scheme = [] then [] else u.scheme ++ [':', '/', '/']) ++ u.host ++ u.rest

/-- An abstract Go `regexp` engine: which patterns compile, and what a
compiled pattern matches.  The development quantifies over it. -/
structure RegexEngine where
  compiles : Str → Bool
  run : Str → Str → Bool

/-- Modelled from the documented contract of Go `regexp.MatchString`:
returns `(matched, hasErr)`; a pattern that fails to compile yields
`matched = false` together with an error. -/
def regexpMatchString (e : RegexEngine) (pattern s : Str) : Bool × Bool :=
  if e.compiles pattern then (e.run pattern s, false) else (false, true)

/-- The `gfwListRule` implementations of gfwlist.go as one sum type:
`hostWildcardRule`, `urlWildcardRule` (with its `prefixMatch` flag),
`regexRule`, and the `whiteListRule` wrapper. -/
inductive GFWRule where
  | hostWildcard (pattern : Str)
  | urlWildcard (pattern : Str) (prefMatch : Bool)
  | regex (pattern : Str)
  | white (inner : GFWRule)
deriving DecidableEq

/-- The `match(*url.URL) bool` methods of gfwlist.go.  Go mutates the
shared `*url.URL` (the URL-wide variants default an empty scheme to
`"https"` before stringifying); the embedding returns the updated URL as
the second component.
  * `hostWildcardRule.match`: `strings.Contains(u.Host, r.pattern)`.
  * `urlWildcardRule.match`: scheme default, then `HasPrefix`/`Contains`
    on `u.String()` according to `prefixMatch`.
  * `regexRule.match`: scheme default, then `regexp.MatchString` on
    `u.String()`; a compile error is logged and `matched` returned as is.
  * `whiteListRule.match`: delegates to the wrapped rule. -/
def GFWRule.matchURL (e : RegexEngine) : GFWRule → URL → Bool × URL
  | .hostWildcard p, u => (strContains u.host p, u)
  | .urlWildcard p pm, u =>
    let u' := if u.scheme.length = 0 then { u with scheme := httpsStr } else u
    ((if pm then hasPrefix (URL.toStr u') p else strContains (URL.toStr u') p), u')
  | .regex p, u =>
    let u' := if u.scheme.length = 0 then { u with scheme := httpsStr } else u
    ((regexpMatchString e p (URL.toStr u')).1, u')
  | .white r, u => r.matchURL e u

/-- The dynamic type test `rule.(*whiteListRule)` used by the engine:
true exactly for a top-level `whiteListRule` wrapper. -/
def GFWRule.isWhite : GFWRule → Bool
  | .white _ => true
  | _ => false

/-- The `GFWList` ruleset: `ruleMap` (the exact-domain fast index, a Go
map embedded as a key-unique association list) and `ruleList` (the
ordered fallback rules).  The mutex is a concurrency artefact with no
effect on the sequential decision and is not modelled. -/
structure GFWList where
  ruleMap : List (Str × GFWRule)
  ruleList : List GFWRule

/-- Go map assignment `m[k] = v`: overwrite the entry for `k` if present,
otherwise add it. -/
def mapInsert (k : Str) (v : GFWRule) : List (Str × GFWRule) → List (Str × GFWRule)
  | [] => [(k, v)]
  | (k', v') :: rest => if k' = k then (k, v) :: rest else (k', v') :: mapInsert k v rest

/-- Go map lookup `rule, exist := m[k]`. -/
def mapFind? (k : Str) : List (Str × GFWRule) → Option GFWRule
  | [] => none
  | (k', v) :: rest => if k' = k then some v else mapFind? k rest

/-- The root-domain heuristic computed inside `fastMatchDomain`
(gfwlist.go lines 121-127): split the (port-free) domain on `.`; with
more than two labels take the last two joined by `.`, widened to the last
three when the second-to-last label is shorter than 4 characters; with
two or fewer labels the domain itself is kept. -/
def rootDomainCandidate (domain : Str) : Str :=
  let ss := splitOnChar '.' domain
  if ss.length > 2 then
    let rd := ss.getD (ss.length - 2) [] ++ ['.'] ++ ss.getD (ss.length - 1) []
    if (ss.getD (ss.length - 2) []).length < 4 ∧ ss.length ≥ 3 then
      ss.getD (ss.length - 3) [] ++ ['.'] ++ rd
    else rd
  else domain

/-- `(*GFWList).fastMatchDomain` (gfwlist.go lines 111-138).  `shp`
models the host result of `net.SplitHostPort` (a Go standard-library
collaborator; its error is discarded by the code), applied exactly when
the authority contains `':'`. -/
def fastMatchDomain (e : RegexEngine) (shp : Str → Str) (gfw : GFWList) (u : URL) :
    Bool × Bool :=
  let domain := if strContains u.host [':'] then shp u.host else u.host
  match mapFind? domain gfw.ruleMap with
  | some rule =>
    let matched := (rule.matchURL e u).1
    if rule.isWhite then (!matched, true) else (matched, true)
  | none =>
    match mapFind? (rootDomainCandidate domain) gfw.ruleMap with
    | some rule =>
      let matched := (rule.matchURL e u).1
      if rule.isWhite then (!matched, true) else (matched, true)
    | none => (false, false)

/-- The fallback loop of `IsBlockedByGFW` (gfwlist.go lines 154-161):
scan the rules in order, threading the URL (whose scheme a rule may have
defaulted); the first matching rule yields `false` when whitelist-wrapped
and `true` otherwise; an exhausted list yields `false`. -/
def scanRules (e : RegexEngine) : List GFWRule → URL → Bool
  | [], _ => false
  | rule :: rest, u =>
    let m := rule.matchURL e u
    if m.1 then !rule.isWhite else scanRules e rest m.2

/-- `(*GFWList).IsBlockedByGFW` (gfwlist.go lines 140-163).  `parse`
models `url.Parse` (a Go standard-library collaborator), `none` standing
for a parse error. -/
def IsBlockedByGFW (e : RegexEngine) (shp : Str → Str) (parse : Str → Option URL)
    (gfw : GFWList) (host : Str) : Bool :=
  match parse host with
  | none => false
  | some u =>
    let fm := fastMatchDomain e shp gfw u
    if fm.2 then fm.1 else scanRules e gfw.ruleList u

/-- The if/else classification chain of the parsing loop (gfwlist.go
lines 218-239), after the `@@` strip: yields the constructed base rule,
the `fastMatch` flag, and the final value of the Go variable `str` (the
`ruleMap` key for fast-match rules).  In the `/.../` branch Go slices
`str[1:len(str)-1]`, which panics for the one-character line `/`; the
embedding drops first and last character, which agrees with Go on every
line of length at least 2. -/
def classifyRule (str1 : Str) : GFWRule × Bool × Str :=
  if hasPrefix str1 ['/'] && hasSuffix str1 ['/'] then
    let s := (str1.drop 1).dropLast
    (GFWRule.regex s, false, s)
  else if hasPrefix str1 ['|', '|'] then
    let s := str1.drop 2
    (GFWRule.hostWildcard s, true, s)
  else if hasPrefix str1 ['|'] then
    (GFWRule.urlWildcard (str1.drop 1) true, false, str1)
  else if !strContains str1 ['/'] then
    (GFWRule.hostWildcard str1, true,
      if hasPrefix str1 ['.'] then str1.drop 1 else str1)
  else
    (GFWRule.urlWildcard str1 false, false, str1)

/-- The per-line body of the parsing loop of `fetchGFWList` (gfwlist.go
lines 196-248), acting on one decoded line: trim; skip blanks, `!`
comments and `[` headers; strip `@@` recording the whitelist flag;
classify the remainder; wrap whitelist rules; finally store fast-match
rules in `ruleMap` under the final text and append the rest to
`ruleList`. -/
def parseGFWLine (gfw : GFWList) (line : Str) : GFWList :=
  let str0 := trimSpace line
  if str0.isEmpty || hasPrefix str0 ['!'] || hasPrefix str0 ['['] then gfw
  else
    let isWhileListRule := hasPrefix str0 ['@', '@']
    let str1 := if isWhileListRule then str0.drop 2 else str0
    let c := classifyRule str1
    let rule := if isWhileListRule then GFWRule.white c.1 else c.1
    if c.2.1 then { gfw with ruleMap := mapInsert c.2.2 rule gfw.ruleMap }
    else { gfw with ruleList := gfw.ruleList ++ [rule] }

/-- The whole parsing loop of `fetchGFWList`, over the decoded lines. -/
def parseGFWList (lines : List Str) : GFWList :=
  lines.foldl parseGFWLine { ruleMap := [], ruleList := [] }

/-! ### Spec-side definitions and helpers -/

/-- Join a list of labels with `.` separators (spec wording: "the last
two labels joined by '.'"). -/
def joinDots : List Str → Str
  | [] => []
  | [s] => s
  | s :: rest => s ++ ['.'] ++ joinDots rest

/-- The root-domain candidate as the spec words it: split on `.`; with
more than two labels the candidate is the last two labels joined by `.`,
or the last three when the second-to-last label has fewer than 4
characters (and at least 3 labels exist); otherwise the whole domain. -/
def rootDomainSpec (domain : Str) : Str :=
  let labels := splitOnChar '.' domain
  if labels.length > 2 then
    if (labels.getD (labels.length - 2) []).length < 4 ∧ labels.length ≥ 3 then
      joinDots (labels.drop (labels.length - 3))
    else
      joinDots (labels.drop (labels.length - 2))
  else domain

/-- The rule the fast path finds: the exact-domain entry if present, else
the entry for the heuristic root.  Mirrors the two lookups of
`fastMatchDomain`. -/
def fastLookup (shp : Str → Str) (gfw : GFWList) (u : URL) : Option GFWRule :=
  let domain := if strContains u.host [':'] then shp u.host else u.host
  match mapFind? domain gfw.ruleMap with
  | some rule => some rule
  | none => mapFind? (rootDomainCandidate domain) gfw.ruleMap

/-- Engine-level verdict once a rule is found: whitelist wrappers negate
the match result, other rules pass it through. -/
def evalFound (e : RegexEngine) (rule : GFWRule) (u : URL) : Bool :=
  if rule.isWhite then !(rule.matchURL e u).1 else (rule.matchURL e u).1

/-- A host-wildcard rule, possibly whitelist-wrapped: the shape of every
value the parser stores in `ruleMap`. -/
def isHostRule : GFWRule → Bool
  | .hostWildcard _ => true
  | .white (.hostWildcard _) => true
  | _ => false

/-- Spec wording for "a pure domain token": a (possibly whitelist-wrapped)
host-wildcard whose pattern contains no path separator `/` and no URL
anchor token `|`. -/
def pureDomainPattern : GFWRule → Bool
  | .hostWildcard p => !strContains p ['/'] && !strContains p ['|']
  | .white (.hostWildcard p) => !strContains p ['/'] && !strContains p ['|']
  | _ => false

/-! ### Concrete instances used by witnesses and the worked scenario -/

/-- A regex engine on which every pattern compiles and nothing matches. -/
def engineTriv : RegexEngine := ⟨fun _ => true, fun _ _ => false⟩

/-- A regex engine on which no pattern compiles (its `run` would report a
match, showing that `run` is irrelevant once compilation fails). -/
def engineNoCompile : RegexEngine := ⟨fun _ => false, fun _ _ => true⟩

/-- A `net.SplitHostPort` model that returns its input unchanged. -/
def shpId : Str → Str := fun s => s

/-- A `url.Parse` model that fails on every input. -/
def parseNone : Str → Option URL := fun _ => none

/-- The list line `||example.com`. -/
def lineBlock : Str := ['|', '|', 'e', 'x', 'a', 'm', 'p', 'l', 'e', '.', 'c', 'o', 'm']

/-- The list line `@@||safe.example.com`. -/
def lineWhite : Str :=
  ['@', '@', '|', '|', 's', 'a', 'f', 'e', '.', 'e', 'x', 'a', 'm', 'p', 'l', 'e',
    '.', 'c', 'o', 'm']

/-- The ruleset of the spec's worked scenario. -/
def gfwDemo : GFWList := parseGFWList [lineBlock, lineWhite]

/-- The domain `sub.safe.example.com`. -/
def subSafeHost : Str :=
  ['s', 'u', 'b', '.', 's', 'a', 'f', 'e', '.', 'e', 'x', 'a', 'm', 'p', 'l', 'e',
    '.', 'c', 'o', 'm']

/-- The domain `example.com`. -/
def exampleCom : Str := ['e', 'x', 'a', 'm', 'p', 'l', 'e', '.', 'c', 'o', 'm']

/-- The parsed form of `http://sub.safe.example.com`. -/
def urlDemo : URL := ⟨['h', 't', 't', 'p'], subSafeHost, []⟩

/-- The query text `http://sub.safe.example.com`. -/
def urlTextDemo : Str := ['h', 't', 't', 'p', ':', '/', '/'] ++ subSafeHost

/-- Modelled from the spec: `url.Parse` on the scenario's query text
yields scheme `http` and host `sub.safe.example.com`; other inputs are
irrelevant to the scenario and fail. -/
def parseDemo : Str → Option URL :=
  fun s => if s = urlTextDemo then some urlDemo else none

/-- A ruleset whose fast index is empty, so every query takes the
fallback scan. -/
def gfwNoFast : GFWList := ⟨[], [GFWRule.hostWildcard subSafeHost]⟩

lemma joinDots_pair (a b : Str) : joinDots [a, b] = a ++ ['.'] ++ b := rfl

lemma joinDots_triple (a b c : Str) :
    joinDots [a, b, c] = a ++ ['.'] ++ (b ++ ['.'] ++ c) := rfl

lemma drop_two (l : List Str) (i : Nat) (h : l.length = i + 2) :
    l.drop i = [l.getD i [], l.getD (i + 1) []] := by
  induction i generalizing l with
  | zero =>
    match l, h with
    | [a, b], _ => rfl
  | succ n ih =>
    match l with
    | [] => simp at h
    | a :: t =>
      have ht : t.length = n + 2 := by simpa using h
      simpa using ih t ht

lemma drop_three (l : List Str) (i : Nat) (h : l.length = i + 3) :
    l.drop i = [l.getD i [], l.getD (i + 1) [], l.getD (i + 2) []] := by
  induction i generalizing l with
  | zero =>
    match l, h with
    | [a, b, c], _ => rfl
  | succ n ih =>
    match l with
    | [] => simp at h
    | a :: t =>
      have ht : t.length = n + 3 := by simpa using h
      simpa using ih t ht

lemma fastMatchDomain_eq (e : RegexEngine) (shp : Str → Str) (gfw : GFWList) (u : URL) :
    fastMatchDomain e shp gfw u =
      match fastLookup shp gfw u with
      | some rule => (evalFound e rule u, true)
      | none => (false, false) := by
  unfold fastMatchDomain fastLookup evalFound
  cases h1 : mapFind? (if strContains u.host [':'] then shp u.host else u.host) gfw.ruleMap with
  | some rule => by_cases hw : rule.isWhite <;> simp [h1, hw]
  | none =>
    cases h2 : mapFind?
        (rootDomainCandidate (if strContains u.host [':'] then shp u.host else u.host))
        gfw.ruleMap with
    | some rule => by_cases hw : rule.isWhite <;> simp [h1, h2, hw]
    | none => simp [h1, h2]

lemma strContains_nil_pat (s : Str) : strContains s [] = true := by
  unfold strContains
  rw [List.any_eq_true]
  exact ⟨0, List.mem_range.mpr (by omega), by simp [List.isPrefixOf]⟩

lemma mapInsert_all (P : Str × GFWRule → Bool) (k : Str) (v : GFWRule)
    (m : List (Str × GFWRule)) (hv : P (k, v) = true) (hm : m.all P = true) :
    (mapInsert k v m).all P = true := by
  induction m with
  | nil => simp [mapInsert, hv]
  | cons a t ih =>
    obtain ⟨a1, a2⟩ := a
    simp only [List.all_cons, Bool.and_eq_true] at hm
    by_cases hk : a1 = k
    · simp [mapInsert, hk, hv, hm.2]
    · simp [mapInsert, hk, hm.1, ih hm.2]

lemma classifyRule_fast_host (s : Str) (h : (classifyRule s).2.1 = true) :
    ∃ p, (classifyRule s).1 = GFWRule.hostWildcard p := by
  unfold classifyRule at h ⊢
  split_ifs at h ⊢ <;> exact ⟨_, rfl⟩

lemma parseGFWLine_ruleMap_all (gfw : GFWList) (line : Str)
    (h : (gfw.ruleMap.all fun kv => isHostRule kv.2) = true) :
    (((parseGFWLine gfw line).ruleMap).all fun kv => isHostRule kv.2) = true := by
  unfold parseGFWLine
  by_cases hskip :
      ((trimSpace line).isEmpty || hasPrefix (trimSpace line) ['!']
        || hasPrefix (trimSpace line) ['[']) = true
  · simp [hskip, h]
  · simp only [hskip, Bool.false_eq_true, if_false, if_true]
    set str1 :=
      if hasPrefix (trimSpace line) ['@', '@']
        then (trimSpace line).drop 2 else trimSpace line with hstr1
    by_cases hfast : (classifyRule str1).2.1 = true
    · obtain ⟨p, hp⟩ := classifyRule_fast_host str1 hfast
      by_cases hwl : hasPrefix (trimSpace line) ['@', '@'] = true
      · simp only [hskip, hwl, hfast, if_true, Bool.false_eq_true]
        exact mapInsert_all _ _ _ _ (by simp [hp, isHostRule]) h
      · simp only [hskip, hwl, hfast, if_true, Bool.false_eq_true, if_false]
        exact mapInsert_all _ _ _ _ (by simp [hp, isHostRule]) h
    · simp only [hfast, Bool.false_eq_true, if_false]
      exact h

lemma parseGFWList_ruleMap_all (lines : List Str) :
    (((parseGFWList lines).ruleMap).all fun kv => isHostRule kv.2) = true := by
  unfold parseGFWList
  have main : ∀ (ls : List Str) (g : GFWList),
      (g.ruleMap.all fun kv => isHostRule kv.2) = true →
      (((ls.foldl parseGFWLine g).ruleMap).all fun kv => isHostRule kv.2) = true := by
    intro ls
    induction ls with
    | nil => intro g hg; exact hg
    | cons a t ih =>
      intro g hg
      exact ih _ (parseGFWLine_ruleMap_all g a hg)
  exact main lines ⟨[], []⟩ (by simp)

/-- **C2.** For every domain absent from the exact index, the fast-path
candidate root consulted by `fastMatchDomain` is exactly what the spec
describes: split on `.`; more than two labels give the last two joined by
`.`, widened to the last three when the second-to-last label has fewer
than 4 characters (with at least 3 labels); two or fewer labels keep the
whole domain.  The code computes the candidate from the domain alone, so
the equality holds for every domain. -/
theorem rootDomainCandidate_matches_spec (domain : Str) :
    rootDomainCandidate domain = rootDomainSpec domain := by
  simp only [rootDomainCandidate, rootDomainSpec]
  set ss := splitOnChar '.' domain with hss
  by_cases h : ss.length > 2
  · by_cases h4 : (ss.getD (ss.length - 2) []).length < 4 ∧ ss.length ≥ 3
    · simp only [if_pos h, if_pos h4]
      rw [drop_three ss (ss.length - 3) (by omega), joinDots_triple]
      have e1 : ss.length - 3 + 1 = ss.length - 2 := by omega
      have e2 : ss.length - 3 + 2 = ss.length - 1 := by omega
      rw [e1, e2]
    · simp only [if_pos h, if_neg h4]
      rw [drop_two ss (ss.length - 2) (by omega), joinDots_pair]
      have e1 : ss.length - 2 + 1 = ss.length - 1 := by omega
      rw [e1]
  · simp only [if_neg h]

lemma parseGFWLine_eval (gfw : GFWList) (s : Str)
    (h0 : trimSpace s = s)
    (hskip : (s.isEmpty || hasPrefix s ['!'] || hasPrefix s ['[']) = false)
    (hat : hasPrefix s ['@', '@'] = false) :
    parseGFWLine gfw s =
      (if (classifyRule s).2.1 then
        { gfw with ruleMap := mapInsert (classifyRule s).2.2 (classifyRule s).1 gfw.ruleMap }
      else { gfw with ruleList := gfw.ruleList ++ [(classifyRule s).1] }) := by
  unfold parseGFWLine
  rw [h0]
  simp only [hskip, hat, Bool.false_eq_true, if_false]

/-- **C1.** When the fast-path lookup (exact domain, else heuristic root)
finds a rule, `IsBlockedByGFW` returns the negation of that rule's match
result for a whitelist-wrapped rule and the match result itself
otherwise, and the fallback list is never consulted: the result is
unchanged under an arbitrary replacement of `ruleList`. -/
theorem isBlockedFastPathDecides (e : RegexEngine) (shp : Str → Str)
    (parse : Str → Option URL) (gfw : GFWList) (host : Str) (u : URL)
    (rule : GFWRule) (l : List GFWRule)
    (hp : parse host = some u)
    (hf : fastLookup shp gfw u = some rule) :
    IsBlockedByGFW e shp parse gfw host
        = (if rule.isWhite then !(rule.matchURL e u).1 else (rule.matchURL e u).1)
      ∧ IsBlockedByGFW e shp parse { gfw with ruleList := l } host
        = IsBlockedByGFW e shp parse gfw host := by
  have hfast : fastMatchDomain e shp gfw u = (evalFound e rule u, true) := by
    rw [fastMatchDomain_eq, hf]
  have hfast2 : fastMatchDomain e shp { gfw with ruleList := l } u
      = (evalFound e rule u, true) := by
    rw [fastMatchDomain_eq]
    have hf2 : fastLookup shp { gfw with ruleList := l } u = some rule := hf
    rw [hf2]
  constructor
  · unfold IsBlockedByGFW
    rw [hp]
    simp [hfast, evalFound]
  · unfold IsBlockedByGFW
    rw [hp]
    simp [hfast, hfast2]

/-- Witness for C1 on the worked ruleset: the root lookup finds
`||example.com`, the verdict is that rule's match result, and swapping in
a nonempty fallback list changes nothing. -/
theorem isBlockedFastPathDecides_witness :
    (parseDemo urlTextDemo = some urlDemo
        ∧ fastLookup shpId gfwDemo urlDemo = some (GFWRule.hostWildcard exampleCom))
      ∧ (IsBlockedByGFW engineTriv shpId parseDemo gfwDemo urlTextDemo
            = (if (GFWRule.hostWildcard exampleCom).isWhite
                then !((GFWRule.hostWildcard exampleCom).matchURL engineTriv urlDemo).1
                else ((GFWRule.hostWildcard exampleCom).matchURL engineTriv urlDemo).1)
          ∧ IsBlockedByGFW engineTriv shpId parseDemo
                { gfwDemo with ruleList := [GFWRule.regex []] } urlTextDemo
            = IsBlockedByGFW engineTriv shpId parseDemo gfwDemo urlTextDemo) :=
  ⟨⟨by decide, by decide⟩,
    isBlockedFastPathDecides engineTriv shpId parseDemo gfwDemo urlTextDemo urlDemo
      (GFWRule.hostWildcard exampleCom) [GFWRule.regex []] (by decide) (by decide)⟩

/-- **C3.** When the input parses and neither fast-path lookup hits,
`IsBlockedByGFW` equals the ordered fallback scan, and that scan is
first-match-wins in list order: the empty list yields `false`, and a head
rule that matches decides (`false` when whitelist-wrapped, `true`
otherwise) while a non-matching head passes the (possibly
scheme-normalized) URL to the rest of the scan. -/
theorem isBlockedFallbackScan (e : RegexEngine) (shp : Str → Str)
    (parse : Str → Option URL) (gfw : GFWList) (host : Str) (u : URL)
    (r : GFWRule) (rs : List GFWRule) (v : URL)
    (hp : parse host = some u)
    (hf : fastLookup shp gfw u = none) :
    IsBlockedByGFW e shp parse gfw host = scanRules e gfw.ruleList u
      ∧ scanRules e [] v = false
      ∧ scanRules e (r :: rs) v
          = (if (r.matchURL e v).1 then !r.isWhite else scanRules e rs (r.matchURL e v).2) := by
  refine ⟨?_, rfl, rfl⟩
  have hfast : fastMatchDomain e shp gfw u = (false, false) := by
    rw [fastMatchDomain_eq, hf]
  unfold IsBlockedByGFW
  rw [hp]
  simp [hfast]

/-- Witness for C3: with an empty fast index every lookup misses and the
verdict is the ordered scan's, here at a whitelist head rule. -/
theorem isBlockedFallbackScan_witness :
    (parseDemo urlTextDemo = some urlDemo
        ∧ fastLookup shpId gfwNoFast urlDemo = none)
      ∧ (IsBlockedByGFW engineTriv shpId parseDemo gfwNoFast urlTextDemo
            = scanRules engineTriv gfwNoFast.ruleList urlDemo
          ∧ scanRules engineTriv [] urlDemo = false
          ∧ scanRules engineTriv (GFWRule.white (GFWRule.hostWildcard []) :: [GFWRule.regex []]) urlDemo
            = (if ((GFWRule.white (GFWRule.hostWildcard [])).matchURL engineTriv urlDemo).1
                then !(GFWRule.white (GFWRule.hostWildcard [])).isWhite
                else scanRules engineTriv [GFWRule.regex []]
                  ((GFWRule.white (GFWRule.hostWildcard [])).matchURL engineTriv urlDemo).2)) :=
  ⟨⟨by decide, by decide⟩,
    isBlockedFallbackScan engineTriv shpId parseDemo gfwNoFast urlTextDemo urlDemo
      (GFWRule.white (GFWRule.hostWildcard [])) [GFWRule.regex []] urlDemo
      (by decide) (by decide)⟩

/-- **C6.** An input on which URL parsing fails makes `IsBlockedByGFW`
return `false` (fail-open), for every ruleset and collaborator
behaviour. -/
theorem isBlockedParseFailureFailOpen (e : RegexEngine) (shp : Str → Str)
    (parse : Str → Option URL) (gfw : GFWList) (host : Str)
    (hp : parse host = none) :
    IsBlockedByGFW e shp parse gfw host = false := by
  unfold IsBlockedByGFW
  rw [hp]

/-- Witness for C6: a parser that fails on everything yields `false`,
even on a ruleset that would block the host via its fast index. -/
theorem isBlockedParseFailureFailOpen_witness :
    parseNone urlTextDemo = none
      ∧ IsBlockedByGFW engineTriv shpId parseNone gfwDemo urlTextDemo = false :=
  ⟨by decide,
    isBlockedParseFailureFailOpen engineTriv shpId parseNone gfwDemo urlTextDemo (by decide)⟩

/-- **C7.** A regex rule whose pattern fails to compile matches no URL:
`regexp.MatchString` yields `(false, error)`, the code logs the error and
returns the `false` match result.  The failure is only a logged value;
`matchURL` and `IsBlockedByGFW` are total `Bool`-valued functions, so no
error reaches their callers. -/
theorem regexCompileFailureNeverMatches (e : RegexEngine) (p s : Str) (u : URL)
    (hc : e.compiles p = false) :
    ((GFWRule.regex p).matchURL e u).1 = false
      ∧ regexpMatchString e p s = (false, true) := by
  refine ⟨?_, by simp [regexpMatchString, hc]⟩
  simp [GFWRule.matchURL, regexpMatchString, hc]

/-- Witness for C7: on an engine that compiles nothing (and whose raw
matcher would even report a hit), the regex rule still never matches. -/
theorem regexCompileFailureNeverMatches_witness :
    engineNoCompile.compiles ['('] = false
      ∧ ((GFWRule.regex ['(']).matchURL engineNoCompile urlDemo).1 = false
      ∧ regexpMatchString engineNoCompile ['('] [] = (false, true) :=
  ⟨by decide,
    (regexCompileFailureNeverMatches engineNoCompile ['('] [] urlDemo (by decide)).1,
    (regexCompileFailureNeverMatches engineNoCompile ['('] [] urlDemo (by decide)).2⟩

/-- **C9.** The URL-string variants (`urlWildcardRule` with either flag,
`regexRule`) set the URL's scheme to `https` exactly when it is empty and
leave host and rest untouched; `hostWildcardRule` returns the URL
unchanged and its verdict depends only on the host: two URLs with equal
hosts (arbitrary schemes and rests) get equal results. -/
theorem matchSchemeNormalizationFrame (e : RegexEngine) (p : Str) (pm : Bool)
    (u v : URL) (hhost : u.host = v.host) :
    (((GFWRule.urlWildcard p pm).matchURL e u).2).scheme
        = (if u.scheme.length = 0 then httpsStr else u.scheme)
      ∧ (((GFWRule.urlWildcard p pm).matchURL e u).2).host = u.host
      ∧ (((GFWRule.urlWildcard p pm).matchURL e u).2).rest = u.rest
      ∧ (((GFWRule.regex p).matchURL e u).2).scheme
        = (if u.scheme.length = 0 then httpsStr else u.scheme)
      ∧ (((GFWRule.regex p).matchURL e u).2).host = u.host
      ∧ (((GFWRule.regex p).matchURL e u).2).rest = u.rest
      ∧ ((GFWRule.hostWildcard p).matchURL e u).2 = u
      ∧ ((GFWRule.hostWildcard p).matchURL e u).1
        = ((GFWRule.hostWildcard p).matchURL e v).1 := by
  unfold GFWRule.matchURL
  by_cases h : u.scheme.length = 0 <;> simp [h, hhost]

/-- Witness for C9 at an empty-scheme URL and a partner URL with the same
host but different scheme and rest. -/
theorem matchSchemeNormalizationFrame_witness :
    ((URL.mk [] subSafeHost []).host = urlDemo.host)
      ∧ ((((GFWRule.urlWildcard ['a'] true).matchURL engineTriv (URL.mk [] subSafeHost [])).2).scheme
            = (if (URL.mk [] subSafeHost []).scheme.length = 0
                then httpsStr else (URL.mk [] subSafeHost []).scheme)
          ∧ (((GFWRule.urlWildcard ['a'] true).matchURL engineTriv (URL.mk [] subSafeHost [])).2).host
            = (URL.mk [] subSafeHost []).host
          ∧ (((GFWRule.urlWildcard ['a'] true).matchURL engineTriv (URL.mk [] subSafeHost [])).2).rest
            = (URL.mk [] subSafeHost []).rest
          ∧ (((GFWRule.regex ['a']).matchURL engineTriv (URL.mk [] subSafeHost [])).2).scheme
            = (if (URL.mk [] subSafeHost []).scheme.length = 0
                then httpsStr else (URL.mk [] subSafeHost []).scheme)
          ∧ (((GFWRule.regex ['a']).matchURL engineTriv (URL.mk [] subSafeHost [])).2).host
            = (URL.mk [] subSafeHost []).host
          ∧ (((GFWRule.regex ['a']).matchURL engineTriv (URL.mk [] subSafeHost [])).2).rest
            = (URL.mk [] subSafeHost []).rest
          ∧ ((GFWRule.hostWildcard ['a']).matchURL engineTriv (URL.mk [] subSafeHost [])).2
            = URL.mk [] subSafeHost []
          ∧ ((GFWRule.hostWildcard ['a']).matchURL engineTriv (URL.mk [] subSafeHost [])).1
            = ((GFWRule.hostWildcard ['a']).matchURL engineTriv urlDemo).1) :=
  ⟨by decide,
    matchSchemeNormalizationFrame engineTriv ['a'] true (URL.mk [] subSafeHost []) urlDemo
      (by decide)⟩

/-- **C4 counterexample.** The line `||a/b` parses to a fast-match
host-wildcard whose pattern contains the path separator `/`; it is stored
in the exact index (and nothing reaches the ordered fallback list),
contradicting both the no-`/` invariant and the clause diverting
path-carrying tokens to `orderedRules`. -/
theorem exactIndexSlashCounterexample :
    (parseGFWList [['|', '|', 'a', '/', 'b']]).ruleMap
        = [(['a', '/', 'b'], GFWRule.hostWildcard ['a', '/', 'b'])]
      ∧ (parseGFWList [['|', '|', 'a', '/', 'b']]).ruleList = []
      ∧ pureDomainPattern (GFWRule.hostWildcard ['a', '/', 'b']) = false := by
  decide

/-- **C4 (amended).** Every rule stored in `exactIndex` is a
`HostWildcard`, possibly whitelist-wrapped; the no-path requirement only
governs the bare-token branch, whose path-carrying lines are indeed
appended to `orderedRules` (as URL substring rules) — a `||` line enters
the index even when its pattern contains `/` or an anchor token. -/
theorem exactIndexHostWildcardInvariant (lines : List Str) (gfw : GFWList) (s : Str)
    (h0 : trimSpace s = s)
    (hskip : (s.isEmpty || hasPrefix s ['!'] || hasPrefix s ['[']) = false)
    (hat : hasPrefix s ['@', '@'] = false)
    (hre : (hasPrefix s ['/'] && hasSuffix s ['/']) = false)
    (hp2 : hasPrefix s ['|', '|'] = false)
    (hp1 : hasPrefix s ['|'] = false)
    (hsl : strContains s ['/'] = true) :
    (((parseGFWList lines).ruleMap).all fun kv => isHostRule kv.2) = true
      ∧ parseGFWLine gfw s
        = { gfw with ruleList := gfw.ruleList ++ [GFWRule.urlWildcard s false] } := by
  refine ⟨parseGFWList_ruleMap_all lines, ?_⟩
  have hc : classifyRule s = (GFWRule.urlWildcard s false, false, s) := by
    unfold classifyRule
    simp only [hre, hp2, hp1, hsl, Bool.false_eq_true, if_false, Bool.not_true]
  rw [parseGFWLine_eval gfw s h0 hskip hat, hc]
  simp

/-- Witness for the amended C4 at the ruleset of the counterexample line
and the path-carrying bare token `a/b`. -/
theorem exactIndexHostWildcardInvariant_witness :
    (trimSpace ['a', '/', 'b'] = ['a', '/', 'b']
        ∧ ((['a', '/', 'b'] : Str).isEmpty || hasPrefix ['a', '/', 'b'] ['!']
            || hasPrefix ['a', '/', 'b'] ['[']) = false
        ∧ hasPrefix ['a', '/', 'b'] ['@', '@'] = false
        ∧ (hasPrefix ['a', '/', 'b'] ['/'] && hasSuffix ['a', '/', 'b'] ['/']) = false
        ∧ hasPrefix ['a', '/', 'b'] ['|', '|'] = false
        ∧ hasPrefix ['a', '/', 'b'] ['|'] = false
        ∧ strContains ['a', '/', 'b'] ['/'] = true)
      ∧ ((((parseGFWList [['|', '|', 'a', '/', 'b']]).ruleMap).all
            fun kv => isHostRule kv.2) = true
          ∧ parseGFWLine gfwNoFast ['a', '/', 'b']
            = { gfwNoFast with
                  ruleList := gfwNoFast.ruleList ++ [GFWRule.urlWildcard ['a', '/', 'b'] false] }) :=
  ⟨⟨by decide, by decide, by decide, by decide, by decide, by decide, by decide⟩,
    exactIndexHostWildcardInvariant [['|', '|', 'a', '/', 'b']] gfwNoFast ['a', '/', 'b']
      (by decide) (by decide) (by decide) (by decide) (by decide) (by decide) (by decide)⟩

/-- **C5 counterexample.** The bare line `.ab` is stored under the key
`ab` (the leading dot stripped) but the stored rule's pattern keeps the
dot: the stored pattern is `.ab`, not the index key. -/
theorem bareTokenDotCounterexample :
    (parseGFWList [['.', 'a', 'b']]).ruleMap
        = [(['a', 'b'], GFWRule.hostWildcard ['.', 'a', 'b'])]
      ∧ GFWRule.hostWildcard ['.', 'a', 'b'] ≠ GFWRule.hostWildcard ['a', 'b'] := by
  decide

/-- **C5 (amended).** For a non-skipped, non-whitelist, non-regex,
non-anchored line without `/`, the parser builds a `HostWildcard` whose
pattern is the *unstripped* remaining text and stores it in `exactIndex`
keyed by the text with one leading `.` stripped; stored pattern and index
key coincide exactly when the text has no leading dot. -/
theorem bareTokenDotStrippedKeyOnly (gfw : GFWList) (s : Str)
    (h0 : trimSpace s = s)
    (hskip : (s.isEmpty || hasPrefix s ['!'] || hasPrefix s ['[']) = false)
    (hat : hasPrefix s ['@', '@'] = false)
    (hre : (hasPrefix s ['/'] && hasSuffix s ['/']) = false)
    (hp2 : hasPrefix s ['|', '|'] = false)
    (hp1 : hasPrefix s ['|'] = false)
    (hsl : strContains s ['/'] = false) :
    parseGFWLine gfw s
      = { gfw with
            ruleMap := mapInsert (if hasPrefix s ['.'] then s.drop 1 else s)
              (GFWRule.hostWildcard s) gfw.ruleMap } := by
  have hc : classifyRule s
      = (GFWRule.hostWildcard s, true, if hasPrefix s ['.'] then s.drop 1 else s) := by
    unfold classifyRule
    simp only [hre, hp2, hp1, hsl, Bool.false_eq_true, if_false, Bool.not_false, if_true]
  rw [parseGFWLine_eval gfw s h0 hskip hat, hc]
  simp

/-- Witness for the amended C5 at the dotted line `.ab`. -/
theorem bareTokenDotStrippedKeyOnly_witness :
    (trimSpace ['.', 'a', 'b'] = ['.', 'a', 'b']
        ∧ ((['.', 'a', 'b'] : Str).isEmpty || hasPrefix ['.', 'a', 'b'] ['!']
            || hasPrefix ['.', 'a', 'b'] ['[']) = false
        ∧ hasPrefix ['.', 'a', 'b'] ['@', '@'] = false
        ∧ (hasPrefix ['.', 'a', 'b'] ['/'] && hasSuffix ['.', 'a', 'b'] ['/']) = false
        ∧ hasPrefix ['.', 'a', 'b'] ['|', '|'] = false
        ∧ hasPrefix ['.', 'a', 'b'] ['|'] = false
        ∧ strContains ['.', 'a', 'b'] ['/'] = false)
      ∧ parseGFWLine ⟨[], []⟩ ['.', 'a', 'b']
        = { GFWList.mk [] [] with
              ruleMap := mapInsert
                (if hasPrefix ['.', 'a', 'b'] ['.']
                  then (['.', 'a', 'b'] : Str).drop 1 else ['.', 'a', 'b'])
                (GFWRule.hostWildcard ['.', 'a', 'b']) (GFWList.mk [] []).ruleMap } :=
  ⟨⟨by decide, by decide, by decide, by decide, by decide, by decide, by decide⟩,
    bareTokenDotStrippedKeyOnly ⟨[], []⟩ ['.', 'a', 'b']
      (by decide) (by decide) (by decide) (by decide) (by decide) (by decide) (by decide)⟩

/-- **C8.** On the ruleset parsed from `||example.com` then
`@@||safe.example.com`, the query `http://sub.safe.example.com` misses
the exact index under its full domain, derives the heuristic root
`example.com` (the second-to-last label `example` is not shorter than 4
characters), finds the non-whitelist rule `||example.com` there, and is
reported blocked. -/
theorem isBlockedDemoScenario :
    IsBlockedByGFW engineTriv shpId parseDemo gfwDemo urlTextDemo = true
      ∧ mapFind? subSafeHost gfwDemo.ruleMap = none
      ∧ rootDomainCandidate subSafeHost = exampleCom
      ∧ mapFind? exampleCom gfwDemo.ruleMap = some (GFWRule.hostWildcard exampleCom)
      ∧ (GFWRule.hostWildcard exampleCom).isWhite = false := by
  decide

/-- **C10 counterexample.** The line `@@` stores, under the empty key,
the whitelist-wrapped empty-pattern host wildcard — not literally "a
HostWildcard rule whose pattern is the empty string". -/
theorem emptyPatternWhitelistCounterexample :
    (parseGFWList [['@', '@']]).ruleMap = [([], GFWRule.white (GFWRule.hostWildcard []))]
      ∧ GFWRule.white (GFWRule.hostWildcard []) ≠ GFWRule.hostWildcard [] := by
  decide

/-- **C10 (amended).** An empty-pattern host wildcard matches every URL
(bare or whitelist-wrapped, since the wrapper delegates); the line `||`
stores the bare empty-pattern rule and the line `@@` its
whitelist-wrapped form, both in `exactIndex` under the empty-string key,
so any lookup that resolves to the empty key is decided by that rule. -/
theorem emptyPatternRuleMatchesAll (e : RegexEngine) (u : URL) :
    ((GFWRule.hostWildcard []).matchURL e u).1 = true
      ∧ ((GFWRule.white (GFWRule.hostWildcard [])).matchURL e u).1 = true
      ∧ (parseGFWList [['|', '|']]).ruleMap = [([], GFWRule.hostWildcard [])]
      ∧ (parseGFWList [['@', '@']]).ruleMap
        = [([], GFWRule.white (GFWRule.hostWildcard []))]
      ∧ mapFind? [] (parseGFWList [['|', '|']]).ruleMap = some (GFWRule.hostWildcard []) := by
  refine ⟨?_, ?_, by decide, by decide, by decide⟩
  · simp [GFWRule.matchURL, strContains_nil_pat]
  · simp [GFWRule.matchURL, strContains_nil_pat]
